import Mathlib

/-!
Verification of the NLB availability checker (`models.py`, `availability.py`,
`nlb_client.py`) against its natural-language specification.

Python strings are modelled as lists of characters (`Str`), Python dicts of
JSON data as association lists over a `JsonVal` inductive, exceptions as
`Except`, and the HTTP client as an oracle giving the response to each
request.  All definitions are translated directly from the source files.
-/

/-- Python strings, modelled as their sequence of characters. -/
abbrev Str := List Char

/-- Model of Python `str.lower()` (per-character lowercasing). -/
def lowerStr (s : Str) : Str := s.map Char.toLower

/-- Does `hay` start with `needle`?  (Helper for substring search.) -/
def strStartsWith : (hay needle : Str) → Bool
  | _, [] => true
  | [], _ :: _ => false
  | a :: as, b :: bs => a == b && strStartsWith as bs

/-- Model of Python's `needle in hay` substring test on strings. -/
def strContains : (hay needle : Str) → Bool
  | [], needle => needle.isEmpty
  | a :: t, needle => strStartsWith (a :: t) needle || strContains t needle

/-- Accumulator for `splitWS`: current (reversed) token plus processed input. -/
def splitWSAux : List Char → List Char → List Str
  | [], acc => if acc.isEmpty then [] else [acc.reverse]
  | c :: cs, acc =>
    if c.isWhitespace then
      if acc.isEmpty then splitWSAux cs [] else acc.reverse :: splitWSAux cs []
    else splitWSAux cs (c :: acc)

/-- Model of Python `str.split()` with no arguments: split on whitespace runs,
dropping empty tokens. -/
def splitWS (s : Str) : List Str := splitWSAux s []

/-- Model of Python `str.strip()`: drop leading and trailing whitespace. -/
def pyStrip (s : Str) : Str :=
  ((s.dropWhile Char.isWhitespace).reverse.dropWhile Char.isWhitespace).reverse

/-- The literal `"available"` searched for by `CopyInfo.is_available`. -/
def sAvailable : Str := "available".data

/-- A single space, as concatenated by `CopyInfo.is_available`. -/
def sSpace : Str := " ".data

/-- Embedding of `models.CopyInfo`: details for one physical copy
(`location`, `status`, `transaction`, `media`, `call_number`). -/
structure CopyInfo where
  location : Str
  status : Str
  transaction : Str
  media : Str
  call_number : Str
deriving Repr

/-- Embedding of `CopyInfo.is_available`:
`"available" in (self.transaction + " " + self.status).lower()`. -/
def CopyInfo.is_available (c : CopyInfo) : Bool :=
  strContains (lowerStr (c.transaction ++ sSpace ++ c.status)) sAvailable

/-- Embedding of `models.BookQuery`. -/
structure BookQuery where
  title : Str
  author : Str
  material_type : Option Str
  exclude_sources : List Str
deriving Repr

/-- Embedding of `BookQuery.title_matches`: case-insensitive substring match. -/
def BookQuery.title_matches (q : BookQuery) (api_title : Str) : Bool :=
  strContains (lowerStr api_title) (lowerStr q.title)

/-- Embedding of `BookQuery.author_matches`: any token of the lowercased query
author with length `> 3` occurring inside the lowercased API author string. -/
def BookQuery.author_matches (q : BookQuery) (api_author : Str) : Bool :=
  let api_lower := lowerStr api_author
  (splitWS (lowerStr q.author)).any fun word =>
    decide (3 < word.length) && strContains api_lower word

/-- Embedding of `BookQuery.source_allowed`: the lowercased source must not be
among the lowercased excluded sources. -/
def BookQuery.source_allowed (q : BookQuery) (api_source : Str) : Bool :=
  !((q.exclude_sources.map lowerStr).contains (lowerStr api_source))

/-- Embedding of `models.LibrarySummary`: aggregated availability at one
library branch. -/
structure LibrarySummary where
  library : Str
  available : Nat
  total : Nat
  copies : List CopyInfo
deriving Repr

/-- Embedding of `models.BookAvailability`: full availability result for one
query, as annotated in `models.py` (copies are `CopyInfo` values). -/
structure BookAvailability where
  query : BookQuery
  brns : List Int
  copies : List CopyInfo
  error : Option Str
deriving Repr

/-- Distinct elements of a list in order of first occurrence: the iteration
order of the Python `defaultdict` bucket keys in `library_summaries`. -/
def firstDedup : List Str → List Str
  | [] => []
  | x :: xs => x :: (firstDedup xs).filter fun y => !(y == x)

/-- Lexicographic (code-point) order on strings, as used by Python `sorted`
with a string key. -/
def strLe : Str → Str → Bool
  | [], _ => true
  | _ :: _, [] => false
  | a :: as, b :: bs => if a = b then strLe as bs else decide (a < b)

/-- Comparison of summaries by their `library` key
(`sorted(summaries, key=lambda s: s.library)`). -/
def summaryLe (a b : LibrarySummary) : Prop := strLe a.library b.library = true

instance : DecidableRel summaryLe := fun _ _ => Bool.decEq _ _

/-- Embedding of `BookAvailability.library_summaries`: bucket the copies by
location, count available copies and copies per bucket, sort by library name. -/
def BookAvailability.library_summaries (r : BookAvailability) : List LibrarySummary :=
  List.insertionSort summaryLe
    ((firstDedup (r.copies.map (·.location))).map fun lib =>
      LibrarySummary.mk lib
        ((r.copies.filter fun c => c.location == lib).countP (·.is_available))
        (r.copies.filter fun c => c.location == lib).length
        (r.copies.filter fun c => c.location == lib))

/-- Embedding of `BookAvailability.any_available`. -/
def BookAvailability.any_available (r : BookAvailability) : Bool :=
  r.copies.any (·.is_available)

/-- Embedding of `BookAvailability.total_available`:
`sum(1 for c in self.copies if c.is_available)`. -/
def BookAvailability.total_available (r : BookAvailability) : Nat :=
  r.copies.countP (·.is_available)

/-! ### Characterisation of the string helpers -/

theorem strStartsWith_iff (needle : Str) : ∀ hay : Str,
    strStartsWith hay needle = true ↔ ∃ t, needle ++ t = hay := by
  induction needle with
  | nil => intro hay; simp [strStartsWith]
  | cons b bs ih =>
    intro hay
    cases hay with
    | nil => simp [strStartsWith]
    | cons a as =>
      simp only [strStartsWith, Bool.and_eq_true, beq_iff_eq, ih, List.cons_append,
        List.cons.injEq]
      constructor
      · rintro ⟨rfl, t, rfl⟩
        exact ⟨t, rfl, rfl⟩
      · rintro ⟨t, rfl, rfl⟩
        exact ⟨rfl, t, rfl⟩

theorem strContains_iff (needle : Str) : ∀ hay : Str,
    strContains hay needle = true ↔ ∃ s t, s ++ needle ++ t = hay := by
  intro hay
  induction hay with
  | nil =>
    simp only [strContains, List.isEmpty_iff]
    constructor
    · rintro rfl
      exact ⟨[], [], rfl⟩
    · rintro ⟨s, t, h⟩
      have := List.append_eq_nil.mp h
      exact (List.append_eq_nil.mp this.1).2
  | cons a as ih =>
    simp only [strContains, Bool.or_eq_true, ih, strStartsWith_iff]
    constructor
    · rintro (⟨t, ht⟩ | ⟨s, t, ht⟩)
      · exact ⟨[], t, by simpa using ht⟩
      · exact ⟨a :: s, t, by simp [ht]⟩
    · rintro ⟨s, t, h⟩
      cases s with
      | nil => exact .inl ⟨t, by simpa using h⟩
      | cons x xs =>
        rw [List.cons_append, List.cons_append] at h
        injection h with h1 h2
        exact .inr ⟨xs, t, h2⟩

/-! ### Bucketing lemmas for the per-branch aggregation -/

theorem countP_filter_key_add (p : CopyInfo → Bool) (k : Str) (l : List CopyInfo) :
    ((l.filter fun c => c.location == k).countP p)
      + ((l.filter fun c => !(c.location == k)).countP p) = l.countP p := by
  induction l with
  | nil => simp
  | cons c cs ih =>
    cases hk : (c.location == k) <;>
      cases hp : p c <;>
        simp [List.filter_cons, List.countP_cons, hk, hp] <;> omega

theorem sum_countP_buckets (p : CopyInfo → Bool) (ks : List Str) :
    ∀ l : List CopyInfo, ks.Nodup → (∀ c ∈ l, c.location ∈ ks) →
    (ks.map fun k => (l.filter fun c => c.location == k).countP p).sum = l.countP p := by
  induction ks with
  | nil =>
    intro l _ hcov
    have hl : l = [] := by
      cases l with
      | nil => rfl
      | cons c cs => exact absurd (hcov c (by simp)) (by simp)
    simp [hl]
  | cons k ks ih =>
    intro l hnd hcov
    have hk_not : k ∉ ks := (List.nodup_cons.mp hnd).1
    have hstep : ∀ k' ∈ ks,
        l.filter (fun c => c.location == k')
          = (l.filter fun c => !(c.location == k)).filter (fun c => c.location == k') := by
      intro k' hk'
      rw [List.filter_filter]
      apply List.filter_congr
      intro c _
      cases h : (c.location == k')
      · simp
      · have : c.location = k' := beq_iff_eq.mp h
        have hkk : k' ≠ k := fun he => hk_not (he ▸ hk')
        simp [this, hkk]
    rw [List.map_cons, List.sum_cons]
    have htail : (ks.map fun k' => (l.filter fun c => c.location == k').countP p)
        = (ks.map fun k' =>
            ((l.filter fun c => !(c.location == k)).filter fun c => c.location == k').countP p) := by
      apply List.map_congr_left
      intro k' hk'
      rw [hstep k' hk']
    rw [htail, ih _ (List.nodup_cons.mp hnd).2 ?_]
    · exact countP_filter_key_add p k l
    · intro c hc
      have hmem := List.mem_filter.mp hc
      have hloc := hcov c hmem.1
      have hne : c.location ≠ k := by
        intro he
        simp [he] at hmem
      rcases List.mem_cons.mp hloc with he | h
      · exact absurd he hne
      · exact h

theorem mem_firstDedup {x : Str} : ∀ {l : List Str}, x ∈ l → x ∈ firstDedup l := by
  intro l
  induction l with
  | nil => simp
  | cons y ys ih =>
    intro hx
    rcases List.mem_cons.mp hx with rfl | h
    · simp [firstDedup]
    · by_cases hxy : x = y
      · subst hxy; simp [firstDedup]
      · simp only [firstDedup, List.mem_cons, List.mem_filter]
        exact .inr ⟨ih h, by simp [hxy]⟩

theorem nodup_firstDedup : ∀ l : List Str, (firstDedup l).Nodup := by
  intro l
  induction l with
  | nil => simp [firstDedup]
  | cons y ys ih =>
    refine List.nodup_cons.mpr ⟨?_, ih.filter _⟩
    intro hmem
    have h := (List.mem_filter.mp hmem).2
    simp at h

theorem sum_map_insertionSort (f : LibrarySummary → Nat) (l : List LibrarySummary) :
    ((List.insertionSort summaryLe l).map f).sum = (l.map f).sum :=
  List.Perm.sum_eq (List.Perm.map f (List.perm_insertionSort summaryLe l))

/-- Characterisation of `BookQuery.author_matches` as an existential over the
whitespace tokens of the lowercased query author. -/
theorem author_matches_iff (q : BookQuery) (api_author : Str) :
    q.author_matches api_author = true ↔
      ∃ w ∈ splitWS (lowerStr q.author), 3 < w.length ∧
        ∃ s t, s ++ w ++ t = lowerStr api_author := by
  unfold BookQuery.author_matches
  simp only [List.any_eq_true, Bool.and_eq_true, decide_eq_true_eq, strContains_iff]

/-! ### Concrete fixtures used by witnesses -/

/-- Fixture string: a one-letter title. -/
def sX : Str := "X".data

/-- Fixture string: the spec's query author example. -/
def sAndyWeir : Str := "Andy Weir".data

/-- Fixture string: the spec's inverted candidate author example. -/
def sWeirAndy : Str := "Weir, Andy".data

/-- Fixture string: an author whose every token has length at most 3. -/
def sShortAuthor : Str := "a bc".data

/-- Fixture string: the default excluded source. -/
def sOverdrive : Str := "overdrive".data

/-- Fixture string: a branch name. -/
def sCentral : Str := "Central".data

/-- Fixture string: a status text. -/
def sNotOnLoan : Str := "Not on Loan".data

/-- Fixture string: another status text. -/
def sOnLoan : Str := "On Loan".data

/-- Fixture string: an available transaction status text. -/
def sAvailForLoan : Str := "Available for loan".data

/-- Fixture string: a media text. -/
def sBook : Str := "Book".data

/-- Fixture copy: available at Central. -/
def copyAvail : CopyInfo := CopyInfo.mk sCentral sNotOnLoan sAvailForLoan sBook []

/-- Fixture copy: on loan at Central. -/
def copyOnLoan : CopyInfo := CopyInfo.mk sCentral sOnLoan sOnLoan sBook []

/-- Fixture query used by witnesses. -/
def q0 : BookQuery := BookQuery.mk sX sAndyWeir none [sOverdrive]

/-- Fixture result with two copies at one branch. -/
def r0 : BookAvailability := BookAvailability.mk q0 [456] [copyAvail, copyOnLoan] none

/-! ### Claims -/

/-- C1: for every result, the sum of the per-branch available-counts produced
by `library_summaries` equals `total_available`, and the sum of the per-branch
total-counts equals the length of the result's copy list. -/
theorem c1_branch_counts_consistent (r : BookAvailability) :
    ((r.library_summaries.map (·.available)).sum = r.total_available) ∧
    ((r.library_summaries.map (·.total)).sum = r.copies.length) := by
  have hnd := nodup_firstDedup (r.copies.map (·.location))
  have hcov : ∀ c ∈ r.copies, c.location ∈ firstDedup (r.copies.map (·.location)) :=
    fun c hc => mem_firstDedup (List.mem_map_of_mem _ hc)
  unfold BookAvailability.library_summaries BookAvailability.total_available
  constructor
  · rw [sum_map_insertionSort, List.map_map]
    have h := sum_countP_buckets (·.is_available)
      (firstDedup (r.copies.map (·.location))) r.copies hnd hcov
    simpa [Function.comp] using h
  · rw [sum_map_insertionSort, List.map_map]
    have h := sum_countP_buckets (fun _ => true)
      (firstDedup (r.copies.map (·.location))) r.copies hnd hcov
    simpa [Function.comp, List.countP_true] using h

/-- Witness for C1 at a concrete two-copy result. -/
theorem c1_branch_counts_consistent_witness :
    ((r0.library_summaries.map (·.available)).sum = r0.total_available) ∧
    ((r0.library_summaries.map (·.total)).sum = r0.copies.length) :=
  c1_branch_counts_consistent r0

/-- C2: a copy is available iff the string `"available"` occurs as a substring
of the lowercased concatenation of its transaction text, a space, and its
status text (substring semantics, not exact match). -/
theorem c2_is_available_iff_substring (c : CopyInfo) :
    c.is_available = true ↔
      ∃ s t, s ++ sAvailable ++ t = lowerStr (c.transaction ++ sSpace ++ c.status) :=
  strContains_iff sAvailable (lowerStr (c.transaction ++ sSpace ++ c.status))

/-- Witness for C2: the substring decomposition at a concrete available copy. -/
theorem c2_is_available_iff_substring_witness :
    ∃ s t, s ++ sAvailable ++ t
      = lowerStr (copyAvail.transaction ++ sSpace ++ copyAvail.status) :=
  (c2_is_available_iff_substring copyAvail).mp (by decide)

/-- C7: the author-match predicate holds iff some whitespace token of the
lowercased query author longer than 3 characters occurs inside the lowercased
candidate author; in particular `"Andy Weir"` matches `"Weir, Andy"`, and a
query author whose every token has length at most 3 matches nothing. -/
theorem c7_author_match_characterisation :
    (∀ (q : BookQuery) (api_author : Str),
        q.author_matches api_author = true ↔
          ∃ w ∈ splitWS (lowerStr q.author), 3 < w.length ∧
            ∃ s t, s ++ w ++ t = lowerStr api_author) ∧
    ((BookQuery.mk sX sAndyWeir none [sOverdrive]).author_matches sWeirAndy = true) ∧
    (∀ (q : BookQuery) (api_author : Str),
        (∀ w ∈ splitWS (lowerStr q.author), w.length ≤ 3) →
        q.author_matches api_author = false) := by
  refine ⟨author_matches_iff, by decide, ?_⟩
  intro q api h
  cases hb : q.author_matches api
  · rfl
  · obtain ⟨w, hw, hlen, -⟩ := (author_matches_iff q api).mp hb
    exact absurd hlen (not_lt.mpr (h w hw))

/-- Witness for C7: a query author made only of short tokens matches no
candidate author. -/
theorem c7_author_match_characterisation_witness :
    (BookQuery.mk sX sShortAuthor none []).author_matches sWeirAndy = false :=
  c7_author_match_characterisation.2.2 (BookQuery.mk sX sShortAuthor none [])
    sWeirAndy (by decide)

/-! ### Model of the raw JSON values handled by `_parse_copy` -/

/-- Python/JSON values as they appear in the raw API responses. -/
inductive JsonVal where
  | null
  | bool (b : Bool)
  | num (n : Int)
  | str (s : Str)
  | arr (xs : List JsonVal)
  | obj (fields : List (Str × JsonVal))

/-- Python truthiness of a JSON value (`None`, `False`, `0`, `""`, `[]`, `{}`
are falsy). -/
def truthy : JsonVal → Bool
  | .null => false
  | .bool b => b
  | .num n => !(n == 0)
  | .str s => !s.isEmpty
  | .arr xs => !xs.isEmpty
  | .obj fs => !fs.isEmpty

/-- Model of Python `dict.get(k)` on a mapping: the bound value, or `None`. -/
def dictGet (d : List (Str × JsonVal)) (k : Str) : JsonVal :=
  match d.find? fun p => p.1 == k with
  | some p => p.2
  | none => .null

/-- Model of Python `v or d`: `v` when truthy, else `d`. -/
def orDefault (v d : JsonVal) : JsonVal := if truthy v then v else d

/-- Dictionary key `"name"`. -/
def kName : Str := "name".data

/-- Dictionary key `"location"`. -/
def kLocation : Str := "location".data

/-- Dictionary key `"status"`. -/
def kStatus : Str := "status".data

/-- Dictionary key `"transactionStatus"`. -/
def kTransactionStatus : Str := "transactionStatus".data

/-- Dictionary key `"media"`. -/
def kMedia : Str := "media".data

/-- Dictionary key `"callNumber"`. -/
def kCallNumber : Str := "callNumber".data

/-- Placeholder `"Unknown Location"`. -/
def sUnknownLocation : Str := "Unknown Location".data

/-- Placeholder `"Unknown Status"`. -/
def sUnknownStatus : Str := "Unknown Status".data

/-- Placeholder `"Unknown Transaction Status"`. -/
def sUnknownTransactionStatus : Str := "Unknown Transaction Status".data

/-- Placeholder `"Unknown Media"`. -/
def sUnknownMedia : Str := "Unknown Media".data

/-- Model of Python `v.get("name")`: only mappings have a `.get` attribute, so
any other receiver raises `AttributeError` (modelled as `Except.error`). -/
def getName (v : JsonVal) : Except Unit JsonVal :=
  match v with
  | .obj fs => .ok (dictGet fs kName)
  | _ => .error ()

/-- The `CopyInfo` dataclass exactly as `_parse_copy` constructs it: Python is
untyped, so each field holds an arbitrary value from the raw response. -/
structure PyCopyInfo where
  location : JsonVal
  status : JsonVal
  transaction : JsonVal
  media : JsonVal
  call_number : JsonVal

/-- Embedding of `availability._parse_copy`.  Each nested object is defaulted
to `{}` when falsy (`or {}`), then `.get("name")` is chained on it — which
raises (`Except.error`) when the value kept by `or {}` is a truthy non-mapping.
Field evaluation follows the Python argument order. -/
def parse_copy (item : List (Str × JsonVal)) : Except Unit PyCopyInfo :=
  match getName (orDefault (dictGet item kLocation) (.obj [])) with
  | .error e => .error e
  | .ok locName =>
    match getName (orDefault (dictGet item kStatus) (.obj [])) with
    | .error e => .error e
    | .ok statusName =>
      match getName (orDefault (dictGet item kTransactionStatus) (.obj [])) with
      | .error e => .error e
      | .ok txnName =>
        match getName (orDefault (dictGet item kMedia) (.obj [])) with
        | .error e => .error e
        | .ok mediaName =>
          .ok (PyCopyInfo.mk
            (orDefault locName (.str sUnknownLocation))
            (orDefault statusName (.str sUnknownStatus))
            (orDefault txnName (.str sUnknownTransactionStatus))
            (orDefault mediaName (.str sUnknownMedia))
            (orDefault (dictGet item kCallNumber) (.str [])))

/-- A raw nested field that survives `or {}` followed by `.get`: either falsy
(so it is replaced by the empty dict) or itself a mapping. -/
def nestedOk : JsonVal → Bool
  | .obj _ => true
  | v => !truthy v

/-- After the `or {}` defaulting, is the nested `"name"` entry absent/falsy? -/
def nameMissing : JsonVal → Bool
  | .obj fs => !truthy (dictGet fs kName)
  | v => !truthy v

theorem getName_of_nestedOk {v : JsonVal} (h : nestedOk v = true) :
    ∃ w, getName (orDefault v (.obj [])) = .ok w ∧
      (nameMissing v = true → truthy w = false) := by
  cases v with
  | obj fs =>
    cases htr : truthy (JsonVal.obj fs) with
    | true =>
      refine ⟨dictGet fs kName, by simp [orDefault, htr, getName], ?_⟩
      intro hm
      simpa [nameMissing] using hm
    | false =>
      refine ⟨dictGet ([] : List (Str × JsonVal)) kName, by simp [orDefault, htr, getName], ?_⟩
      intro _
      simp [dictGet, truthy]
  | null => exact ⟨.null, by simp [orDefault, truthy, getName, dictGet], fun _ => rfl⟩
  | bool b =>
    have hb : b = false := by simpa [nestedOk, truthy] using h
    subst hb
    exact ⟨.null, by simp [orDefault, truthy, getName, dictGet], fun _ => rfl⟩
  | num n =>
    have hn : (n == 0) = true := by simpa [nestedOk, truthy] using h
    exact ⟨.null, by simp [orDefault, truthy, getName, dictGet, hn], fun _ => rfl⟩
  | str s =>
    have hs : s.isEmpty = true := by simpa [nestedOk, truthy] using h
    exact ⟨.null, by simp [orDefault, truthy, getName, dictGet, hs], fun _ => rfl⟩
  | arr xs =>
    have hx : xs.isEmpty = true := by simpa [nestedOk, truthy] using h
    exact ⟨.null, by simp [orDefault, truthy, getName, dictGet, hx], fun _ => rfl⟩

/-- A mapping-shaped input on which `_parse_copy` raises: `"location"` is
bound to the truthy non-mapping `5`, so `(item.get("location") or {})` keeps
`5` and `5 .get("name")` raises `AttributeError`. -/
def badItem : List (Str × JsonVal) := [(kLocation, .num 5)]

/-- C3 counterexample: the parser is not total over arbitrary mapping-shaped
input — on `{"location": 5}` it raises instead of returning a copy record. -/
theorem c3_parse_copy_not_total_cx :
    parse_copy badItem = .error () ∧ ¬∃ c, parse_copy badItem = .ok c := by
  constructor
  · rfl
  · rintro ⟨c, hc⟩
    rw [show parse_copy badItem = .error () from rfl] at hc
    exact Except.noConfusion hc

/-- C3 (amended): for every mapping-shaped input whose values at the four
nested keys are each absent, falsy, or themselves mappings, the parser returns
a copy record without raising, substituting the fixed placeholder whenever the
nested object or its `"name"` entry is absent or falsy, and the empty string
for an absent call number. -/
theorem c3_parse_copy_total_on_wellshaped (item : List (Str × JsonVal))
    (hl : nestedOk (dictGet item kLocation) = true)
    (hs : nestedOk (dictGet item kStatus) = true)
    (ht : nestedOk (dictGet item kTransactionStatus) = true)
    (hm : nestedOk (dictGet item kMedia) = true) :
    ∃ c, parse_copy item = .ok c ∧
      (nameMissing (dictGet item kLocation) = true → c.location = .str sUnknownLocation) ∧
      (nameMissing (dictGet item kStatus) = true → c.status = .str sUnknownStatus) ∧
      (nameMissing (dictGet item kTransactionStatus) = true →
        c.transaction = .str sUnknownTransactionStatus) ∧
      (nameMissing (dictGet item kMedia) = true → c.media = .str sUnknownMedia) ∧
      (truthy (dictGet item kCallNumber) = false → c.call_number = .str []) := by
  obtain ⟨wl, hwl, hml⟩ := getName_of_nestedOk hl
  obtain ⟨ws, hws, hms⟩ := getName_of_nestedOk hs
  obtain ⟨wt, hwt, hmt⟩ := getName_of_nestedOk ht
  obtain ⟨wm, hwm, hmm⟩ := getName_of_nestedOk hm
  refine ⟨PyCopyInfo.mk
      (orDefault wl (.str sUnknownLocation))
      (orDefault ws (.str sUnknownStatus))
      (orDefault wt (.str sUnknownTransactionStatus))
      (orDefault wm (.str sUnknownMedia))
      (orDefault (dictGet item kCallNumber) (.str [])), ?_, ?_, ?_, ?_, ?_, ?_⟩
  · unfold parse_copy
    rw [hwl, hws, hwt, hwm]
  · intro h
    simp [orDefault, hml h]
  · intro h
    simp [orDefault, hms h]
  · intro h
    simp [orDefault, hmt h]
  · intro h
    simp [orDefault, hmm h]
  · intro h
    simp [orDefault, h]

/-- Witness for the amended C3 at a concrete well-shaped item: present
location name is kept, missing status name gets its placeholder, absent call
number becomes the empty string. -/
theorem c3_parse_copy_total_on_wellshaped_witness :
    ∃ c, parse_copy [(kLocation, .obj [(kName, .str sCentral)]), (kStatus, .null)] = .ok c ∧
      (nameMissing (dictGet [(kLocation, .obj [(kName, .str sCentral)]), (kStatus, .null)]
          kLocation) = true → c.location = .str sUnknownLocation) ∧
      (nameMissing (dictGet [(kLocation, .obj [(kName, .str sCentral)]), (kStatus, .null)]
          kStatus) = true → c.status = .str sUnknownStatus) ∧
      (nameMissing (dictGet [(kLocation, .obj [(kName, .str sCentral)]), (kStatus, .null)]
          kTransactionStatus) = true → c.transaction = .str sUnknownTransactionStatus) ∧
      (nameMissing (dictGet [(kLocation, .obj [(kName, .str sCentral)]), (kStatus, .null)]
          kMedia) = true → c.media = .str sUnknownMedia) ∧
      (truthy (dictGet [(kLocation, .obj [(kName, .str sCentral)]), (kStatus, .null)]
          kCallNumber) = false → c.call_number = .str []) :=
  c3_parse_copy_total_on_wellshaped
    [(kLocation, .obj [(kName, .str sCentral)]), (kStatus, .null)] rfl rfl rfl rfl

/-! ### Model of `NLBClient._get` -/

/-- Outcome of one HTTP GET attempt: a 429, any other non-success response
(on which `raise_for_status` raises), or a success carrying parsed JSON. -/
inductive HttpResp (J : Type) where
  | rateLimited
  | failure
  | success (body : J)

/-- Observable outcome of `_get`: parsed JSON, a propagated HTTP error, or the
final `RuntimeError` carrying its message. -/
inductive GetOutcome (J : Type) where
  | ok (body : J)
  | httpError
  | rateLimitExceeded (msg : Str)

/-- Instrumented result of `_get`: outcome plus the trace of `time.sleep`
durations and the number of `requests.get` calls issued. -/
structure GetTrace (J : Type) where
  outcome : GetOutcome J
  sleeps : List Rat
  requests : Nat

/-- First literal fragment of the retry-exhaustion message. -/
def msgPart1 : Str := "Endpoint ".data

/-- Second literal fragment of the retry-exhaustion message. -/
def msgPart2 : Str := " returned HTTP 429 after ".data

/-- Third literal fragment of the retry-exhaustion message. -/
def msgPart3 : Str := " retries. Try increasing retry_wait or request_delay.".data

/-- The `RuntimeError` message raised after exhausting retries, interpolating
the endpoint and `max_retries` exactly as the source f-string does. -/
def rateLimitMsg (endpoint : Str) (max_retries : Nat) : Str :=
  msgPart1 ++ endpoint ++ msgPart2 ++ (Nat.repr max_retries).data ++ msgPart3

/-- Loop body of `_get`: `i` is the index of the next request in the response
sequence, the second argument the number of loop iterations left. -/
def getGo {J : Type} (resps : Nat → HttpResp J) (retry_wait request_delay : Rat)
    (endpoint : Str) (max_retries : Nat) :
    Nat → Nat → List Rat → Nat → GetTrace J
  | _, 0, sleeps, reqs =>
    GetTrace.mk (.rateLimitExceeded (rateLimitMsg endpoint max_retries)) sleeps reqs
  | i, rem+1, sleeps, reqs =>
    match resps i with
    | .rateLimited =>
      getGo resps retry_wait request_delay endpoint max_retries
        (i+1) rem (sleeps ++ [retry_wait]) (reqs+1)
    | .failure => GetTrace.mk .httpError sleeps (reqs+1)
    | .success b => GetTrace.mk (.ok b) (sleeps ++ [request_delay]) (reqs+1)

/-- Embedding of `NLBClient._get`: `for attempt in range(1, max_retries+1)`,
sleeping `retry_wait` after each 429 and `request_delay` after a success. -/
def clientGet {J : Type} (resps : Nat → HttpResp J) (retry_wait request_delay : Rat)
    (endpoint : Str) (max_retries : Nat) : GetTrace J :=
  getGo resps retry_wait request_delay endpoint max_retries 0 max_retries [] 0

theorem getGo_success {J : Type} (resps : Nat → HttpResp J) (rw rd : Rat)
    (endpoint : Str) (maxR : Nat) :
    ∀ (k i rem : Nat) (sleeps : List Rat) (reqs : Nat) (b : J), k < rem →
    (∀ j, j < k → resps (i + j) = .rateLimited) → resps (i + k) = .success b →
    getGo resps rw rd endpoint maxR i rem sleeps reqs
      = GetTrace.mk (.ok b) (sleeps ++ (List.replicate k rw ++ [rd])) (reqs + (k + 1)) := by
  intro k
  induction k with
  | zero =>
    intro i rem sleeps reqs b hrem _ hsucc
    cases rem with
    | zero => omega
    | succ rem =>
      have h0 : resps i = .success b := by simpa using hsucc
      simp [getGo, h0]
  | succ k ih =>
    intro i rem sleeps reqs b hrem hrl hsucc
    cases rem with
    | zero => omega
    | succ rem =>
      have h0 : resps i = .rateLimited := by simpa using hrl 0 (by omega)
      have hrl2 : ∀ j, j < k → resps (i + 1 + j) = .rateLimited := by
        intro j hj
        have := hrl (j + 1) (by omega)
        simpa [Nat.add_comm, Nat.add_assoc, Nat.add_left_comm] using this
      have hsucc2 : resps (i + 1 + k) = .success b := by
        have : i + 1 + k = i + (k + 1) := by omega
        rw [this]
        exact hsucc
      simp only [getGo, h0]
      rw [ih (i + 1) rem (sleeps ++ [rw]) (reqs + 1) b (by omega) hrl2 hsucc2]
      simp [List.replicate_succ, List.append_assoc]
      omega

theorem getGo_allRateLimited {J : Type} (resps : Nat → HttpResp J) (rw rd : Rat)
    (endpoint : Str) (maxR : Nat) :
    ∀ (rem i : Nat) (sleeps : List Rat) (reqs : Nat),
    (∀ j, j < rem → resps (i + j) = .rateLimited) →
    getGo resps rw rd endpoint maxR i rem sleeps reqs
      = GetTrace.mk (.rateLimitExceeded (rateLimitMsg endpoint maxR))
          (sleeps ++ List.replicate rem rw) (reqs + rem) := by
  intro rem
  induction rem with
  | zero =>
    intro i sleeps reqs _
    simp [getGo]
  | succ rem ih =>
    intro i sleeps reqs h
    have h0 : resps i = .rateLimited := by simpa using h 0 (by omega)
    have h2 : ∀ j, j < rem → resps (i + 1 + j) = .rateLimited := by
      intro j hj
      have := h (j + 1) (by omega)
      simpa [Nat.add_comm, Nat.add_assoc, Nat.add_left_comm] using this
    simp only [getGo, h0]
    rw [ih (i + 1) (sleeps ++ [rw]) (reqs + 1) h2]
    simp [List.replicate_succ, List.append_assoc]
    omega

/-- Fixture endpoint name. -/
def sGetTitles : Str := "GetTitles".data

/-- Fixture response sequence for Scenario D: 429 twice, then success. -/
def respsD : Nat → HttpResp Nat := fun i => if i < 2 then .rateLimited else .success 42

/-- Fixture response sequence for Scenario E: 429 on every attempt. -/
def respsE : Nat → HttpResp Nat := fun _ => .rateLimited

/-- C4: the GET wrapper retries on each 429 after sleeping the backoff
interval; a success within the attempt budget returns the parsed body having
slept once per preceding 429 (plus the polite delay); if all `max_retries`
attempts are rate-limited it raises an error whose message names the endpoint
and the retry count, making exactly `max_retries` requests and no more. -/
theorem c4_get_retry_policy {J : Type} (resps : Nat → HttpResp J)
    (retry_wait request_delay : Rat) (endpoint : Str) (max_retries : Nat) :
    (∀ (k : Nat) (b : J), k < max_retries →
      (∀ j, j < k → resps j = .rateLimited) → resps k = .success b →
      clientGet resps retry_wait request_delay endpoint max_retries
        = GetTrace.mk (.ok b) (List.replicate k retry_wait ++ [request_delay]) (k + 1)) ∧
    ((∀ j, j < max_retries → resps j = .rateLimited) →
      clientGet resps retry_wait request_delay endpoint max_retries
        = GetTrace.mk (.rateLimitExceeded (rateLimitMsg endpoint max_retries))
            (List.replicate max_retries retry_wait) max_retries ∧
      (∃ s t, s ++ endpoint ++ t = rateLimitMsg endpoint max_retries) ∧
      (∃ s t, s ++ (Nat.repr max_retries).data ++ t
          = rateLimitMsg endpoint max_retries)) := by
  constructor
  · intro k b hk hrl hsucc
    have h := getGo_success resps retry_wait request_delay endpoint max_retries
      k 0 max_retries [] 0 b hk (by simpa using hrl) (by simpa using hsucc)
    simpa [clientGet] using h
  · intro hrl
    refine ⟨?_, ?_, ?_⟩
    · have h := getGo_allRateLimited resps retry_wait request_delay endpoint max_retries
        max_retries 0 [] 0 (by simpa using hrl)
      simpa [clientGet] using h
    · exact ⟨msgPart1, msgPart2 ++ (Nat.repr max_retries).data ++ msgPart3,
        by simp [rateLimitMsg]⟩
    · exact ⟨msgPart1 ++ endpoint ++ msgPart2, msgPart3, by simp [rateLimitMsg]⟩

/-- Witness for C4: Scenario D (two 429s then success with `max_retries = 3`
sleeps the backoff twice and succeeds) and Scenario E (three 429s exhaust the
budget after exactly three requests). -/
theorem c4_get_retry_policy_witness :
    (clientGet respsD 20 1 sGetTitles 3
      = GetTrace.mk (.ok 42) (List.replicate 2 (20 : Rat) ++ [(1 : Rat)]) 3) ∧
    (clientGet respsE 20 1 sGetTitles 3
      = GetTrace.mk (.rateLimitExceeded (rateLimitMsg sGetTitles 3))
          (List.replicate 3 (20 : Rat)) 3) := by
  constructor
  · exact (c4_get_retry_policy respsD 20 1 sGetTitles 3).1 2 42 (by omega)
      (by
        intro j hj
        match j, hj with
        | 0, _ => rfl
        | 1, _ => rfl) rfl
  · exact ((c4_get_retry_policy respsE 20 1 sGetTitles 3).2 (fun j _ => rfl)).1

/-! ### Model of the orchestrator (`availability.fetch_one` / `fetch_all`) -/

/-- Dictionary key `"title"`. -/
def kTitle : Str := "title".data

/-- Dictionary key `"author"`. -/
def kAuthor : Str := "author".data

/-- Dictionary key `"source"`. -/
def kSource : Str := "source".data

/-- Dictionary key `"brn"`. -/
def kBrn : Str := "brn".data

/-- The client as the orchestrator sees it: what `search_titles` returns for
a query (the raw, mapping-shaped JSON candidates, or the exception text it
raises), and what `get_availability` returns for a BRN (or that it raises). -/
structure ClientModel where
  search_titles : BookQuery → Except Str (List (List (Str × JsonVal)))
  get_availability : Int → Except Unit (List (List (Str × JsonVal)))

/-- Model of `(t.get(k) or "").strip()`: a falsy value is replaced by the
empty string; `.strip()` then raises `AttributeError` (modelled as
`Except.error`) unless the receiver is a string. -/
def getStripped (v : JsonVal) : Except Unit Str :=
  match orDefault v (.str []) with
  | .str s => .ok (pyStrip s)
  | _ => .error ()

/-- Decimal digits after the first one, with Python's single-underscore
grouping allowed between digits. -/
def decDigitsAux : List Char → Nat → Option Nat
  | [], acc => some acc
  | '_' :: c :: rest, acc =>
    if c.isDigit then decDigitsAux rest (acc * 10 + (c.toNat - 48)) else none
  | c :: rest, acc =>
    if c.isDigit then decDigitsAux rest (acc * 10 + (c.toNat - 48)) else none

/-- A nonempty run of decimal digits (underscores permitted between digits). -/
def pyIntDigits : List Char → Option Nat
  | [] => none
  | c :: rest => if c.isDigit then decDigitsAux rest (c.toNat - 48) else none

/-- Model of Python `int(s)` on a string: surrounding whitespace ignored,
optional sign, then a decimal numeral; anything else is a `ValueError`. -/
def pyIntOfStr (s : Str) : Option Int :=
  match pyStrip s with
  | '-' :: rest => (pyIntDigits rest).map fun n => -(n : Int)
  | '+' :: rest => (pyIntDigits rest).map fun n => (n : Int)
  | t => (pyIntDigits t).map fun n => (n : Int)

/-- Model of Python `int(v)` on a JSON value: ints pass through, booleans
coerce to 0/1, strings are parsed as signed decimal numerals, and any other
value raises (`TypeError`/`ValueError`, modelled as `Except.error`). -/
def pyInt : JsonVal → Except Unit Int
  | .num n => .ok n
  | .bool b => .ok (if b then 1 else 0)
  | .str s =>
    match pyIntOfStr s with
    | some n => .ok n
    | none => .error ()
  | _ => .error ()

/-- The candidate loop of `fetch_one`, which sits outside the `try`: for each
raw candidate, strip the three defaulted text fields (raising on a truthy
non-string), skip candidates whose `"brn"` is absent or `None`, test the three
matcher predicates, and convert the BRN with `int` (raising on a value `int`
cannot convert).  Matched BRNs are returned in response order with duplicates
kept; the set structure is applied by `sortedSet`. -/
def matchedBrns (q : BookQuery) : List (List (Str × JsonVal)) → Except Unit (List Int)
  | [] => .ok []
  | t :: ts =>
    match getStripped (dictGet t kTitle) with
    | .error e => .error e
    | .ok t_title =>
      match getStripped (dictGet t kAuthor) with
      | .error e => .error e
      | .ok t_author =>
        match getStripped (dictGet t kSource) with
        | .error e => .error e
        | .ok t_source =>
          match dictGet t kBrn with
          | .null => matchedBrns q ts
          | brnv =>
            if q.title_matches t_title && q.author_matches t_author
                && q.source_allowed t_source then
              match pyInt brnv with
              | .error e => .error e
              | .ok n =>
                match matchedBrns q ts with
                | .error e => .error e
                | .ok ns => .ok (n :: ns)
            else matchedBrns q ts

/-- Insertion into a strictly ascending list, skipping duplicates. -/
def insertSorted (x : Int) : List Int → List Int
  | [] => [x]
  | y :: ys =>
    if x < y then x :: y :: ys
    else if x = y then y :: ys
    else y :: insertSorted x ys

/-- Model of Python `sorted(set(l))`: the distinct elements of `l` in strictly
ascending order. -/
def sortedSet (l : List Int) : List Int := l.foldl (fun acc x => insertSorted x acc) []

/-- The fixed leading part of the search-failure error message. -/
def sSearchFailedPre : Str := "Search failed: ".data

/-- The fixed zero-match error message. -/
def sNoMatch : Str := "No matching physical BRNs found.".data

/-- The `BookAvailability` object as populated by `fetch_one` (its copies hold
the parser's dynamic values). -/
structure FetchResult where
  query : BookQuery
  brns : List Int
  copies : List PyCopyInfo
  error : Option Str

/-- The parse loop `for item in items: copies.append(_parse_copy(item))`; it
sits outside the `try`, so a parse error propagates. -/
def parseItems : List (List (Str × JsonVal)) → Except Unit (List PyCopyInfo)
  | [] => .ok []
  | it :: its =>
    match parse_copy it with
    | .error e => .error e
    | .ok c =>
      match parseItems its with
      | .error e => .error e
      | .ok cs => .ok (c :: cs)

/-- The per-BRN fetch loop of `fetch_one`: a `get_availability` exception is
caught and the BRN skipped (`continue`), while a parse error propagates. -/
def collectCopies (client : ClientModel) : List Int → Except Unit (List PyCopyInfo)
  | [] => .ok []
  | brn :: rest =>
    match client.get_availability brn with
    | .error _ => collectCopies client rest
    | .ok items =>
      match parseItems items with
      | .error e => .error e
      | .ok cs =>
        match collectCopies client rest with
        | .error e => .error e
        | .ok more => .ok (cs ++ more)

/-- Embedding of `availability.fetch_one` (the progress callback is a pure
observer and is omitted).  Only the `search_titles` call is inside the `try`;
an exception in the candidate loop or in the parse loop propagates. -/
def fetch_one (query : BookQuery) (client : ClientModel) : Except Unit FetchResult :=
  match client.search_titles query with
  | .error exc => .ok (FetchResult.mk query [] [] (some (sSearchFailedPre ++ exc)))
  | .ok raw_titles =>
    match matchedBrns query raw_titles with
    | .error e => .error e
    | .ok ms =>
      if (sortedSet ms).isEmpty then
        .ok (FetchResult.mk query (sortedSet ms) [] (some sNoMatch))
      else
        match collectCopies client (sortedSet ms) with
        | .error e => .error e
        | .ok copies =>
          .ok (FetchResult.mk query (sortedSet ms) copies none)

/-- Embedding of `availability.fetch_all`: run `fetch_one` for each query in
input order, appending the results. -/
def fetch_all (queries : List BookQuery) (client : ClientModel) :
    Except Unit (List FetchResult) :=
  match queries with
  | [] => .ok []
  | q :: qs =>
    match fetch_one q client with
    | .error e => .error e
    | .ok r =>
      match fetch_all qs client with
      | .error e => .error e
      | .ok rs => .ok (r :: rs)

/-- The copies that the skip-and-continue policy is expected to keep: for each
BRN in order, the parses of the items of a successful fetch, nothing for a
failed fetch. -/
def okParsedCopies (client : ClientModel) (brns : List Int) : List PyCopyInfo :=
  (brns.map fun b =>
    match client.get_availability b with
    | .error _ => []
    | .ok items => items.filterMap fun it => (parse_copy it).toOption).flatten

/-! ### Sortedness of `sortedSet` -/

theorem mem_insertSorted (x : Int) : ∀ (l : List Int) (y : Int),
    y ∈ insertSorted x l ↔ y = x ∨ y ∈ l := by
  intro l
  induction l with
  | nil => intro y; simp [insertSorted]
  | cons z zs ih =>
    intro y
    by_cases h1 : x < z
    · have he : insertSorted x (z :: zs) = x :: z :: zs := by simp [insertSorted, h1]
      rw [he]
      simp only [List.mem_cons]
    · by_cases h2 : x = z
      · subst h2
        have he : insertSorted x (x :: zs) = x :: zs := by simp [insertSorted]
        rw [he]
        simp only [List.mem_cons]
        tauto
      · have he : insertSorted x (z :: zs) = z :: insertSorted x zs := by
          simp [insertSorted, h1, h2]
        rw [he]
        simp only [List.mem_cons, ih]
        tauto

theorem pairwise_insertSorted (x : Int) : ∀ l : List Int,
    List.Pairwise (· < ·) l → List.Pairwise (· < ·) (insertSorted x l) := by
  intro l
  induction l with
  | nil => intro _; simp [insertSorted]
  | cons z zs ih =>
    intro hp
    obtain ⟨hz, hzs⟩ := List.pairwise_cons.mp hp
    by_cases h1 : x < z
    · simp only [insertSorted, if_pos h1]
      refine List.pairwise_cons.mpr ⟨?_, hp⟩
      intro y hy
      rcases List.mem_cons.mp hy with rfl | hmem
      · exact h1
      · exact lt_trans h1 (hz y hmem)
    · by_cases h2 : x = z
      · subst h2
        simp only [insertSorted, if_neg h1, if_pos rfl]
        exact hp
      · have h3 : z < x := by omega
        simp only [insertSorted, if_neg h1, if_neg h2]
        refine List.pairwise_cons.mpr ⟨?_, ih hzs⟩
        intro y hy
        rcases (mem_insertSorted x zs y).mp hy with rfl | hmem
        · exact h3
        · exact hz y hmem

theorem pairwise_sortedSet (l : List Int) : List.Pairwise (· < ·) (sortedSet l) := by
  have h : ∀ (l acc : List Int), List.Pairwise (· < ·) acc →
      List.Pairwise (· < ·) (l.foldl (fun acc x => insertSorted x acc) acc) := by
    intro l
    induction l with
    | nil => intro acc h; simpa using h
    | cons x xs ih => intro acc h; exact ih _ (pairwise_insertSorted x acc h)
  exact h l [] (by simp)

/-! ### Claims about the orchestrator -/

/-- C6: when the search succeeds but no candidate survives filtering, the
query terminates with exactly the fixed error message, an empty BRN list and
an empty copy list; the availability oracle `g` is universally quantified and
absent from the conclusion, so no availability fetch can influence the
result. -/
theorem c6_zero_match_terminal (q : BookQuery)
    (s : BookQuery → Except Str (List (List (Str × JsonVal))))
    (g : Int → Except Unit (List (List (Str × JsonVal))))
    (raw : List (List (Str × JsonVal)))
    (hs : s q = .ok raw) (hm : matchedBrns q raw = .ok []) :
    fetch_one q (ClientModel.mk s g) = .ok (FetchResult.mk q [] [] (some sNoMatch)) := by
  simp [fetch_one, hs, hm, sortedSet]

/-- Witness for C6: a search returning zero candidates. -/
theorem c6_zero_match_terminal_witness :
    fetch_one q0 (ClientModel.mk (fun _ => .ok []) (fun _ => .ok []))
      = .ok (FetchResult.mk q0 [] [] (some sNoMatch)) :=
  c6_zero_match_terminal q0 (fun _ => .ok []) (fun _ => .ok []) [] rfl rfl

/-- C8: whatever the query, the client's candidates and the availability
responses, the BRN list stored on a returned result is strictly ascending
(sorted with no duplicates). -/
theorem c8_brns_sorted_dedup (q : BookQuery) (client : ClientModel) (r : FetchResult)
    (h : fetch_one q client = .ok r) : List.Pairwise (· < ·) r.brns := by
  unfold fetch_one at h
  split at h
  · injection h with h'
    subst h'
    exact List.Pairwise.nil
  · split at h
    · exact Except.noConfusion h
    · split at h
      · injection h with h'
        subst h'
        exact pairwise_sortedSet _
      · split at h
        · exact Except.noConfusion h
        · injection h with h'
          subst h'
          exact pairwise_sortedSet _

/-- Fixture source label for a physical candidate. -/
def sPhysical : Str := "Physical".data

/-- Fixture raw candidate (a JSON mapping) matching `q0` and carrying the
given BRN. -/
def tMatch (b : Int) : List (Str × JsonVal) :=
  [(kTitle, .str sX), (kAuthor, .str sAndyWeir), (kSource, .str sPhysical), (kBrn, .num b)]

/-- Fixture client whose search returns duplicate, unsorted BRNs. -/
def clientDup : ClientModel := ClientModel.mk
  (fun _ => .ok [tMatch 5, tMatch 3, tMatch 5]) (fun _ => .ok [])

/-- Witness for C8: duplicated, out-of-order candidate BRNs still yield a
strictly ascending BRN list. -/
theorem c8_brns_sorted_dedup_witness :
    List.Pairwise (· < ·) (FetchResult.mk q0 [3, 5] [] none).brns :=
  c8_brns_sorted_dedup q0 clientDup (FetchResult.mk q0 [3, 5] [] none) rfl

theorem parseItems_ok (items : List (List (Str × JsonVal)))
    (h : ∀ it ∈ items, ∃ c, parse_copy it = .ok c) :
    parseItems items = .ok (items.filterMap fun it => (parse_copy it).toOption) := by
  induction items with
  | nil => rfl
  | cons it its ih =>
    obtain ⟨c, hc⟩ := h it (by simp)
    have ih2 := ih fun x hx => h x (by simp [hx])
    simp [parseItems, hc, ih2, Except.toOption]

theorem collectCopies_ok (client : ClientModel) : ∀ brns : List Int,
    (∀ b ∈ brns, ∀ items, client.get_availability b = .ok items →
      ∀ it ∈ items, ∃ c, parse_copy it = .ok c) →
    collectCopies client brns = .ok (okParsedCopies client brns) := by
  intro brns
  induction brns with
  | nil => intro _; rfl
  | cons b rest ih =>
    intro h
    have hrest := ih fun b' hb' => h b' (by simp [hb'])
    cases hg : client.get_availability b with
    | error e => simp [collectCopies, hg, okParsedCopies, hrest]
    | ok items =>
      have hp := parseItems_ok items (h b (by simp) items hg)
      simp [collectCopies, hg, hp, hrest, okParsedCopies]

theorem collectCopies_empty (client : ClientModel) : ∀ brns : List Int,
    (∀ b ∈ brns, client.get_availability b = .error ()
      ∨ client.get_availability b = .ok []) →
    collectCopies client brns = .ok [] := by
  intro brns
  induction brns with
  | nil => intro _; rfl
  | cons b rest ih =>
    intro h
    have hrest := ih fun b' hb' => h b' (by simp [hb'])
    rcases h b (by simp) with hg | hg <;> simp [collectCopies, hg, hrest, parseItems]

/-- Fixture raw availability item with a named location. -/
def itemCentral : List (Str × JsonVal) := [(kLocation, .obj [(kName, .str sCentral)])]

/-- C9: when at least two BRNs are matched and the availability fetch for one
of them raises, `fetch_one` skips that BRN, still returns the copies parsed
from every BRN whose fetch succeeded, and leaves the error unset. -/
theorem c9_per_brn_failure_skipped (q : BookQuery) (client : ClientModel)
    (raw : List (List (Str × JsonVal))) (ms : List Int)
    (hs : client.search_titles q = .ok raw)
    (hms : matchedBrns q raw = .ok ms)
    (htwo : 2 ≤ (sortedSet ms).length)
    (_hfail : ∃ b ∈ sortedSet ms,
      client.get_availability b = .error ())
    (hparse : ∀ b ∈ sortedSet ms, ∀ items,
      client.get_availability b = .ok items → ∀ it ∈ items, ∃ c, parse_copy it = .ok c) :
    fetch_one q client = .ok (FetchResult.mk q (sortedSet ms)
      (okParsedCopies client (sortedSet ms)) none) := by
  have hne : (sortedSet ms).isEmpty = false := by
    cases hl : sortedSet ms with
    | nil => rw [hl] at htwo; simp at htwo
    | cons a l => simp
  have hcol := collectCopies_ok client (sortedSet ms) hparse
  simp [fetch_one, hs, hms, hne, hcol]

/-- Fixture client for the C9 witness: two matched BRNs, the fetch for BRN 1
raises, the fetch for BRN 2 succeeds with one parseable item. -/
def clientC9 : ClientModel := ClientModel.mk
  (fun _ => .ok [tMatch 1, tMatch 2])
  (fun b => if b == 1 then .error () else .ok [itemCentral])

/-- Witness for C9: results from the good BRN survive the failing BRN. -/
theorem c9_per_brn_failure_skipped_witness :
    fetch_one q0 clientC9 = .ok (FetchResult.mk q0
      (sortedSet [1, 2])
      (okParsedCopies clientC9 (sortedSet [1, 2])) none) :=
  c9_per_brn_failure_skipped q0 clientC9 [tMatch 1, tMatch 2] [1, 2] rfl rfl (by decide)
    ⟨1, by decide, rfl⟩
    (by
      intro b hb items h it hit
      by_cases hb1 : b = 1
      · subst hb1
        rw [show clientC9.get_availability 1 = .error () from rfl] at h
        exact Except.noConfusion h
      · rw [show clientC9.get_availability b = .ok [itemCentral] from by
          simp [clientC9, hb1]] at h
        injection h with h'
        subst h'
        simp only [List.mem_singleton] at hit
        subst hit
        exact ⟨_, rfl⟩)

/-- C10: when BRNs are matched but every availability fetch raises or returns
zero items, `fetch_one` returns a success-shaped result with an empty copy
list and no error string. -/
theorem c10_all_fetches_empty_success (q : BookQuery) (client : ClientModel)
    (raw : List (List (Str × JsonVal))) (ms : List Int)
    (hs : client.search_titles q = .ok raw)
    (hms : matchedBrns q raw = .ok ms)
    (hne : sortedSet ms ≠ [])
    (hall : ∀ b ∈ sortedSet ms,
      client.get_availability b = .error () ∨ client.get_availability b = .ok []) :
    fetch_one q client
      = .ok (FetchResult.mk q (sortedSet ms) [] none) := by
  have hemp : (sortedSet ms).isEmpty = false := by
    cases hl : sortedSet ms with
    | nil => exact absurd hl hne
    | cons a l => simp
  simp [fetch_one, hs, hms, hemp, collectCopies_empty client _ hall]

/-- Fixture client for the C10 witness: two matched BRNs, one fetch raises and
the other returns zero items. -/
def clientC10 : ClientModel := ClientModel.mk
  (fun _ => .ok [tMatch 1, tMatch 2])
  (fun b => if b == 1 then .error () else .ok [])

/-- Witness for C10: empty copies and no error. -/
theorem c10_all_fetches_empty_success_witness :
    fetch_one q0 clientC10 = .ok (FetchResult.mk q0
      (sortedSet [1, 2]) [] none) :=
  c10_all_fetches_empty_success q0 clientC10 [tMatch 1, tMatch 2] [1, 2] rfl rfl (by decide)
    (by
      intro b hb
      by_cases hb1 : b = 1
      · subst hb1
        exact .inl rfl
      · exact .inr (by simp [clientC10, hb1]))

theorem fetch_one_ok_of_parses (q : BookQuery) (client : ClientModel)
    (hm : ∀ raw, client.search_titles q = .ok raw → ∃ ms, matchedBrns q raw = .ok ms)
    (hp : ∀ (b : Int) (items : List (List (Str × JsonVal))),
      client.get_availability b = .ok items → ∀ it ∈ items, ∃ c, parse_copy it = .ok c) :
    ∃ r, fetch_one q client = .ok r ∧ r.query = q := by
  unfold fetch_one
  split
  · exact ⟨_, rfl, rfl⟩
  next raw heq =>
    obtain ⟨ms, hms⟩ := hm raw heq
    rw [hms]
    split
    next e heq2 => exact Except.noConfusion heq2
    next ns heq2 =>
      injection heq2 with h'
      subst h'
      split
      · exact ⟨_, rfl, rfl⟩
      · have hcol := collectCopies_ok client (sortedSet ms)
          fun b _ items hg it hit => hp b items hg it hit
        rw [hcol]
        exact ⟨_, rfl, rfl⟩

/-- C5 (amended): provided the candidate loop completes on each query's
search response (every examined candidate has title/author/source entries
that are absent, falsy or strings, and a BRN that `int` accepts when the
candidate matches) and every item returned by a successful availability fetch
parses without raising (its nested fields are absent, falsy or mappings), the
batch fetch returns exactly one result per query, in input order, even when
individual searches or per-BRN fetches fail. -/
theorem c5_batch_order_amended (queries : List BookQuery) (client : ClientModel)
    (hm : ∀ q ∈ queries, ∀ raw, client.search_titles q = .ok raw →
      ∃ ms, matchedBrns q raw = .ok ms)
    (hp : ∀ (b : Int) (items : List (List (Str × JsonVal))),
      client.get_availability b = .ok items → ∀ it ∈ items, ∃ c, parse_copy it = .ok c) :
    ∃ rs, fetch_all queries client = .ok rs ∧ rs.length = queries.length ∧
      List.Forall₂ (fun q r => fetch_one q client = .ok r ∧ r.query = q) queries rs := by
  revert hm
  induction queries with
  | nil => exact fun _ => ⟨[], rfl, rfl, List.Forall₂.nil⟩
  | cons q qs ih =>
    intro hm
    obtain ⟨rs, hrs, hlen, hf⟩ := ih fun q' hq' => hm q' (List.mem_cons_of_mem q hq')
    obtain ⟨r, hr, hq⟩ :=
      fetch_one_ok_of_parses q client (hm q (List.mem_cons_self q qs)) hp
    refine ⟨r :: rs, ?_, by simp [hlen], List.Forall₂.cons ⟨hr, hq⟩ hf⟩
    simp [fetch_all, hr, hrs]

/-- Fixture client on which a malformed availability item makes the batch
abort: the search matches BRN 1 and the fetch returns `{"location": 5}`. -/
def clientCx : ClientModel := ClientModel.mk
  (fun _ => .ok [tMatch 1]) (fun _ => .ok [badItem])

/-- Fixture raw search candidate whose `"title"` is the truthy non-string `7`,
so `(t.get("title") or "").strip()` raises `AttributeError`. -/
def tBadTitle : List (Str × JsonVal) := [(kTitle, .num 7)]

/-- Fixture client on which a malformed search candidate makes the batch
abort even though every availability item (there are none) parses. -/
def clientCx2 : ClientModel := ClientModel.mk
  (fun _ => .ok [tBadTitle]) (fun _ => .ok [])

/-- C5 counterexample: the claim that a batch of N queries always yields N
results with no failure raising past the batch boundary is false, on two
independent paths that both sit outside the `try`: a malformed availability
item aborts the parse loop, and a malformed search candidate aborts the
candidate loop even when every availability item parses. -/
theorem c5_batch_not_total_cx :
    (fetch_all [q0] clientCx = .error () ∧ ¬∃ rs, fetch_all [q0] clientCx = .ok rs) ∧
    (fetch_all [q0] clientCx2 = .error () ∧ ¬∃ rs, fetch_all [q0] clientCx2 = .ok rs) := by
  refine ⟨⟨rfl, ?_⟩, ⟨rfl, ?_⟩⟩
  · rintro ⟨rs, hrs⟩
    rw [show fetch_all [q0] clientCx = .error () from rfl] at hrs
    exact Except.noConfusion hrs
  · rintro ⟨rs, hrs⟩
    rw [show fetch_all [q0] clientCx2 = .error () from rfl] at hrs
    exact Except.noConfusion hrs

/-- Witness for the amended C5 at a concrete one-query batch. -/
theorem c5_batch_order_amended_witness :
    ∃ rs, fetch_all [q0] clientDup = .ok rs ∧ rs.length = [q0].length ∧
      List.Forall₂ (fun q r => fetch_one q clientDup = .ok r ∧ r.query = q) [q0] rs :=
  c5_batch_order_amended [q0] clientDup
    (by
      intro q hq raw h
      simp only [List.mem_singleton] at hq
      subst hq
      rw [show clientDup.search_titles q0
        = .ok [tMatch 5, tMatch 3, tMatch 5] from rfl] at h
      injection h with h'
      subst h'
      exact ⟨[5, 3, 5], rfl⟩)
    (by
      intro b items h it hit
      rw [show clientDup.get_availability b = .ok [] from rfl] at h
      injection h with h'
      subst h'
      simp at hit)
